import Mathlib

/-!
Verification of the dvc-data CLI tree layer (`src/dvc_data/cli.py`).

The source under verification is the CLI module: `apply_op`, `update_tree`,
`merge_tree`, `process_patch` and `from_shortoid`.  The `Tree` object,
the diff classification, the merge construction and the short-digest
resolution live in library modules that are not part of the source tree;
those are modelled from the specification and are marked as such in their
doc comments.
-/

namespace DvcData

/-- Metadata of a filesystem entry: an opaque record in the spec, modelled as an
optional numeric field (enough to state that it round-trips unchanged). -/
abbrev Meta := Option Nat

/-- A content digest (oid). -/
abbrev Digest := String

/-- A tree path key: the tuple of path segments `tuple(path.split("/"))`. -/
abbrev Key := List String

/-- One entry of a tree: (path key, metadata, content digest). -/
abbrev Entry := Key × Meta × Digest

/-- Splitting a character list on the slash character, mirroring Python
`str.split("/")` (the empty string yields one empty segment). -/
def splitChars : List Char → List (List Char)
  | [] => [[]]
  | c :: cs =>
    if c = '/' then [] :: splitChars cs
    else
      match splitChars cs with
      | [] => [[c]]
      | seg :: rest => (c :: seg) :: rest

/-- `tuple(path.split("/"))` from `apply_op`. -/
def splitPath (s : String) : Key :=
  (splitChars s.data).map String.mk

/-- Python dict lookup over the insertion-ordered entry list backing `Tree._dict`. -/
def lookupKey : List Entry → Key → Option (Meta × Digest)
  | [], _ => none
  | e :: es, k => if e.1 = k then some e.2 else lookupKey es k

/-- Python `key in tree._dict`. -/
def hasKey (es : List Entry) (k : Key) : Bool :=
  (lookupKey es k).isSome

/-- Python dict assignment: overwrite in place when the key is present
(keeping its position), append otherwise. -/
def dictInsert : List Entry → Key → Meta × Digest → List Entry
  | [], k, v => [(k, v)]
  | e :: es, k, v => if e.1 = k then (k, v) :: es else e :: dictInsert es k v

/-- Python `dict.pop` of a key (removes the unique occurrence). -/
def dictPop : List Entry → Key → List Entry
  | [], _ => []
  | e :: es, k => if e.1 = k then es else e :: dictPop es k

/-- The keys of an entry list, in order. -/
def keysOf (es : List Entry) : List Key := es.map Prod.fst

/-- The dict invariant: no two entries share a path key. -/
abbrev keysND (es : List Entry) : Prop := (keysOf es).Nodup

/-- The in-memory `Tree` object: `_dict` as an insertion-ordered association
list, the cached `trie` index (`none` once invalidated), and the cached digest
`hash_info` (`none` until `digest()` computes it). -/
structure Tree where
  entries : List Entry
  trie : Option (List Key)
  oid : Option Digest
  deriving DecidableEq

/-- Modelled from the spec: `Tree.add` (dvc_data.objects.tree, not under src)
inserts or overwrites the entry at the key; it invalidates the cached trie
index and any previously computed digest. -/
def Tree.add (t : Tree) (k : Key) (m : Meta) (d : Digest) : Tree :=
  { entries := dictInsert t.entries k (m, d), trie := none, oid := none }

/-- Modelled from the spec: `Tree.get` returns the (meta, digest) pair at the key. -/
def Tree.get (t : Tree) (k : Key) : Option (Meta × Digest) :=
  lookupKey t.entries k

/-- The derived index over the tree's path keys, as recomputed from the
current entries. -/
def trieOf (t : Tree) : List Key := keysOf t.entries

/-- Accessor for the cached trie index: the cache when valid, rebuilt from the
current entries when invalidated. -/
def Tree.getTrie (t : Tree) : List Key :=
  match t.trie with
  | some idx => idx
  | none => trieOf t

/-- Canonical rendering of a key, `posixpath.join` style. -/
def encodeKey (k : Key) : String := String.intercalate "/" k

/-- Canonical rendering of a metadata record. -/
def encodeMeta : Meta → String
  | none => "none"
  | some n => toString n

/-- Canonical rendering of one entry for serialization. -/
def encodeEntry (e : Entry) : String :=
  encodeKey e.1 ++ ":" ++ encodeMeta e.2.1 ++ ":" ++ e.2.2

/-- Lexicographic strict comparison of character lists by code point, the
ordering Python uses on strings. -/
def charListLt : List Char → List Char → Bool
  | [], [] => false
  | [], _ :: _ => true
  | _ :: _, [] => false
  | a :: as, b :: bs => if a.toNat = b.toNat then charListLt as bs else decide (a.toNat < b.toNat)

/-- Strict comparison of strings by code-point sequence. -/
def strLt (a b : String) : Bool := charListLt a.data b.data

/-- Lexicographic comparison of path keys by segment sequence. -/
def keyLe : Key → Key → Bool
  | [], _ => true
  | _ :: _, [] => false
  | a :: as, b :: bs => if a = b then keyLe as bs else strLt a b

/-- Insertion into a key-sorted entry list. -/
def insertEntrySorted (e : Entry) : List Entry → List Entry
  | [] => [e]
  | e2 :: es => if keyLe e.1 e2.1 then e :: e2 :: es else e2 :: insertEntrySorted e es

/-- Entries sorted by key (insertion sort). -/
def sortEntries (es : List Entry) : List Entry :=
  es.foldr insertEntrySorted []

/-- Modelled from the spec: the canonical serialization/digest of a tree
(dvc_data.objects.tree, not under src) — a pure function of the entry triples
in sorted key order. -/
def hashEntries (es : List Entry) : Digest :=
  "md5-" ++ String.intercalate ";" ((sortEntries es).map encodeEntry)

/-- Modelled from the spec: `Tree.digest()` recomputes and caches the tree's
own digest from the current entries. -/
def Tree.digestOf (t : Tree) : Tree :=
  { t with oid := some (hashEntries t.entries) }

/-- The tree's cached digest matches its current entries. -/
def digestFresh (t : Tree) : Prop :=
  t.oid = some (hashEntries t.entries)

/-- The object store (odb): file objects by digest, plus persisted tree
objects. -/
structure Store where
  objs : List Digest
  trees : List Tree
  deriving DecidableEq

/-- `odb.add` of a file object built from external content. -/
def storeAddObj (s : Store) (d : Digest) : Store :=
  { s with objs := d :: s.objs }

/-- `odb.add` of a finalized tree object. -/
def persistTree (s : Store) (t : Tree) : Store :=
  { s with trees := t :: s.trees }

/-- The patch operations of `apply_op` (a well-formed operation record). -/
inductive Op
  | add (path dst : String)
  | modify (path dst : String)
  | remove (path : String)
  | move (path dst : String)
  | copy (path dst : String)
  | test (path : String)
  deriving DecidableEq

/-- The exceptions `apply_op` raises: `FileExistsError` and `FileNotFoundError`,
each carrying the offending path. -/
inductive PatchError
  | alreadyExists (path : String)
  | notFound (path : String)
  deriving DecidableEq

/-- `apply_op` from the source.  `env` models `_build` hashing the external
content found at a local path into a (meta, digest) pair; `odb.add` of the
built file object is the `storeAddObj` on the store component. -/
def apply_op (env : String → Meta × Digest) (s : Store) (obj : Tree) :
    Op → Except PatchError (Store × Tree)
  | .add path dst =>
    if hasKey obj.entries (splitPath dst) then .error (.alreadyExists path)
    else
      let md := env path
      .ok (storeAddObj s md.2, Tree.add obj (splitPath dst) md.1 md.2)
  | .modify path dst =>
    let md := env path
    .ok (storeAddObj s md.2, Tree.add obj (splitPath dst) md.1 md.2)
  | .test path =>
    if hasKey obj.entries (splitPath path) then .ok (s, obj)
    else .error (.notFound path)
  | .remove path =>
    if hasKey obj.entries (splitPath path) then
      .ok (s, { obj with entries := dictPop obj.entries (splitPath path), trie := none })
    else .error (.notFound path)
  | .copy path dst =>
    match lookupKey obj.entries (splitPath path) with
    | none => .error (.notFound path)
    | some md => .ok (s, Tree.add obj (splitPath dst) md.1 md.2)
  | .move path dst =>
    match lookupKey obj.entries (splitPath path) with
    | none => .error (.notFound path)
    | some md =>
      let t1 := Tree.add obj (splitPath dst) md.1 md.2
      .ok (s, { t1 with entries := dictPop t1.entries (splitPath path) })

/-- The loop of `update_tree` from the source: apply the operations strictly in
list order, stopping at the first exception; the partially updated store and
tree at that point are returned together with the error. -/
def runPatch (env : String → Meta × Digest) :
    Store → Tree → List Op → Store × Tree × Option PatchError
  | s, t, [] => (s, t, none)
  | s, t, op :: ops =>
    match apply_op env s t op with
    | .ok (s2, t2) => runPatch env s2 t2 ops
    | .error e => (s, t, some e)

/-- `update_tree` from the source: run the batch; on an exception the command
exits with code 1 (nothing persisted by this flow); on success it calls
`obj.digest()` and then `odb.add` on the finalized tree. -/
def update_tree (env : String → Meta × Digest) (s : Store) (obj : Tree)
    (ops : List Op) : Except PatchError (Store × Tree) :=
  match runPatch env s obj ops with
  | (s2, t2, none) =>
    let t3 := Tree.digestOf t2
    .ok (persistTree s2 t3, t3)
  | (_, _, some e) => .error e

/-- The `ROOT` key of `dvc_data.diff`: the tree's own root entry, the
one-segment key of the empty path (`posixpath.join` of it is empty, printed as
"ROOT" by the diff command). -/
def ROOT : Key := [""]

/-- The diff classification record: `added`, `deleted`, `modified` (with the
old and new sides) and `unchanged`. -/
structure DiffResult where
  added : List Entry
  deleted : List Entry
  modified : List (Key × (Meta × Digest) × (Meta × Digest))
  unchanged : List Entry
  deriving DecidableEq

/-- Modelled from the spec: the diff classification over two entry lists
(dvc_data.diff, not under src) — a key only in the new side is `added`, only in
the old side `deleted`, in both with differing digests `modified`, in both with
equal digests `unchanged`. -/
def diffEntries (olds news : List Entry) : DiffResult :=
  { added := news.filter (fun e => !hasKey olds e.1)
  , deleted := olds.filter (fun e => !hasKey news e.1)
  , modified := olds.filterMap (fun e =>
      match lookupKey news e.1 with
      | none => none
      | some v => if v.2 = e.2.2 then none else some (e.1, e.2, v))
  , unchanged := olds.filter (fun e =>
      match lookupKey news e.1 with
      | none => false
      | some v => decide (v.2 = e.2.2)) }

/-- The entries of a tree as seen by the diff engine: the tree's own `ROOT`
entry (carrying the tree's digest) followed by the leaf entries in sorted key
order. -/
def withRootEntry (t : Tree) : List Entry :=
  (ROOT, (none : Meta), hashEntries t.entries) :: sortEntries t.entries

/-- Modelled from the spec: `diff` between two loaded trees (dvc_data.diff, not
under src), including the root entry on each side. -/
def diffTrees (a b : Tree) : DiffResult :=
  diffEntries (withRootEntry a) (withRootEntry b)

/-- The conflict list computed by `merge_tree` in the source: the keys of the
`modified` classification other than `ROOT`. -/
def nonRootModified (d : DiffResult) : List Key :=
  (d.modified.filter (fun m => decide (m.1 ≠ ROOT))).map Prod.fst

/-- Modelled from the spec: `merge` (dvc_data.objects.tree, not under src) —
start from tree a's entries, then apply every `added` and every `modified`
entry from tree b's side; the merged tree is digest-invalid until finalized. -/
def mergeTrees (a b : Tree) : Tree :=
  let d := diffEntries (sortEntries a.entries) (sortEntries b.entries)
  let base := d.added.foldl (fun es e => dictInsert es e.1 e.2) a.entries
  { entries := d.modified.foldl (fun es m => dictInsert es m.1 m.2.2) base
  , trie := none
  , oid := none }

/-- The outcome of the `merge_tree` command: either `Exit(1)` after echoing the
conflicting paths, or the merged tree persisted into the store. -/
inductive MergeOutcome
  | conflict (paths : List Key)
  | merged (t : Tree) (s : Store)
  deriving DecidableEq

/-- `merge_tree` from the source: without `--force` it computes the diff of the
two trees and collects every non-`ROOT` `modified` key; a nonempty collection
aborts with the conflict list; otherwise (and always with `--force`) it merges,
finalizes the digest and persists the result. -/
def merge_tree (s : Store) (a b : Tree) (force : Bool) : MergeOutcome :=
  let conflicts := if force then [] else nonRootModified (diffTrees a b)
  if conflicts.isEmpty then
    let t := Tree.digestOf (mergeTrees a b)
    .merged t (persistTree s t)
  else .conflict conflicts

/-- One record of a JSON patch file: the `op`, `path` and `to` string fields,
each possibly absent. -/
structure RawOp where
  op : Option String
  path : Option String
  toPath : Option String
  deriving DecidableEq

/-- The runtime exception raised by the patch-file loop of `process_patch`. -/
inductive PyError
  | attrError
  deriving DecidableEq

/-- Python truthiness of an optional string: present and nonempty. -/
def truthy : Option String → Bool
  | none => false
  | some s => !s.data.isEmpty

/-- The patch-file loop of `process_patch` from the source: for each record
with truthy `op` and `path` and `op` in `("add", "modify")` it executes
`patch[appl]["path"] = os.fspath(patch_file.parent.joinpath(path))`, a line
that raises at runtime (`patch_file` is a `str`, which has no `parent`
attribute; and `patch` is a list, which cannot be indexed by the dict `appl`),
so the loop aborts with an exception at the first such record. -/
def patchLoop : List RawOp → Except PyError Unit
  | [] => .ok ()
  | a :: rest =>
    if truthy a.op && truthy a.path &&
        (decide (a.op = some "add") || decide (a.op = some "modify")) then
      .error .attrError
    else patchLoop rest

/-- `process_patch` from the source: run the patch-file loop over the records
loaded from the file, then append the records built from the CLI options. -/
def process_patch (filePatch extra : List RawOp) : Except PyError (List RawOp) :=
  match patchLoop filePatch with
  | .error e => .error e
  | .ok _ => .ok (filePatch ++ extra)

/-- The two failures of short-digest resolution. -/
inductive ShortOidError
  | unknownRef
  | ambiguousRef
  deriving DecidableEq

/-- The distinct stored digests that start with the given short digest. -/
def oidMatches (objs : List Digest) (pre : String) : List Digest :=
  objs.dedup.filter (fun d => List.isPrefixOf pre.data d.data)

/-- Modelled from the spec: short-digest resolution of the object-store
collaborator (`odb.exists_prefix`, dvc-objects) — `KeyError` when no stored
digest starts with the short digest, `ValueError` when more than one does, and
the unique full digest otherwise. -/
def existsPrefixOid (objs : List Digest) (pre : String) : Except ShortOidError Digest :=
  match oidMatches objs pre with
  | [] => .error .unknownRef
  | [d] => .ok d
  | _ :: _ :: _ => .error .ambiguousRef

/-- The observable outcome of a command wrapper: a value, or `Exit` with a
code. -/
inductive CmdResult
  | ok (d : Digest)
  | exited (code : Nat)
  deriving DecidableEq

/-- `from_shortoid` from the source: resolve the short digest; on `KeyError`
(no match) or `ValueError` (ambiguous) echo the complaint and exit with code 1. -/
def from_shortoid (objs : List Digest) (oid : String) : CmdResult :=
  match existsPrefixOid objs oid with
  | .ok d => .ok d
  | .error _ => .exited 1

theorem lookup_insert_self (es : List Entry) (k : Key) (v : Meta × Digest) :
    lookupKey (dictInsert es k v) k = some v := by
  induction es with
  | nil => simp [dictInsert, lookupKey]
  | cons e es ih =>
    by_cases h : e.1 = k
    · simp [dictInsert, lookupKey, h]
    · simp only [dictInsert, lookupKey, if_neg h]
      exact ih

theorem lookup_insert_ne (es : List Entry) (k : Key) (v : Meta × Digest)
    (k2 : Key) (hne : k2 ≠ k) :
    lookupKey (dictInsert es k v) k2 = lookupKey es k2 := by
  induction es with
  | nil =>
    simp only [dictInsert, lookupKey]
    rw [if_neg (fun h : k = k2 => hne h.symm)]
  | cons e es ih =>
    by_cases h : e.1 = k
    · rw [dictInsert, if_pos h, lookupKey, lookupKey,
        if_neg (fun h2 : k = k2 => hne h2.symm),
        if_neg (fun h2 : e.1 = k2 => hne (h ▸ h2.symm))]
    · rw [dictInsert, if_neg h, lookupKey, lookupKey]
      by_cases h2 : e.1 = k2 <;> simp [h2, ih]

theorem mem_keys_insert (es : List Entry) (k : Key) (v : Meta × Digest) (a : Key) :
    a ∈ keysOf (dictInsert es k v) ↔ a = k ∨ a ∈ keysOf es := by
  induction es with
  | nil => simp [dictInsert, keysOf]
  | cons e es ih =>
    rw [dictInsert]
    by_cases h : e.1 = k
    · rw [if_pos h]
      simp only [keysOf, List.map_cons, List.mem_cons] at *
      rw [h]
      tauto
    · rw [if_neg h]
      simp only [keysOf, List.map_cons, List.mem_cons] at *
      rw [ih]
      tauto

theorem nodup_insert (es : List Entry) (k : Key) (v : Meta × Digest)
    (h : keysND es) : keysND (dictInsert es k v) := by
  induction es with
  | nil => simp [dictInsert, keysND, keysOf]
  | cons e es ih =>
    rw [keysND, keysOf, List.map_cons, List.nodup_cons] at h
    rw [keysND, dictInsert]
    by_cases he : e.1 = k
    · rw [if_pos he, keysOf, List.map_cons, List.nodup_cons]
      exact ⟨fun hm => h.1 (he ▸ hm), h.2⟩
    · rw [if_neg he, keysOf, List.map_cons, List.nodup_cons]
      refine ⟨?_, ih h.2⟩
      intro hm
      rw [show List.map Prod.fst (dictInsert es k v) = keysOf (dictInsert es k v) from rfl] at hm
      rcases (mem_keys_insert es k v e.1).mp hm with h1 | h1
      · exact he h1
      · exact h.1 h1

theorem lookup_eq_none_of_not_mem (es : List Entry) (k : Key)
    (h : k ∉ keysOf es) : lookupKey es k = none := by
  induction es with
  | nil => rfl
  | cons e es ih =>
    rw [keysOf, List.map_cons, List.mem_cons] at h
    push_neg at h
    rw [lookupKey, if_neg (fun he => h.1 he.symm)]
    exact ih h.2

theorem lookup_pop_self (es : List Entry) (k : Key) (h : keysND es) :
    lookupKey (dictPop es k) k = none := by
  induction es with
  | nil => rfl
  | cons e es ih =>
    rw [keysND, keysOf, List.map_cons, List.nodup_cons] at h
    by_cases he : e.1 = k
    · rw [dictPop, if_pos he]
      exact lookup_eq_none_of_not_mem es k (he ▸ h.1)
    · rw [dictPop, if_neg he, lookupKey, if_neg he]
      exact ih h.2

theorem lookup_pop_ne (es : List Entry) (k k2 : Key) (hne : k2 ≠ k) :
    lookupKey (dictPop es k) k2 = lookupKey es k2 := by
  induction es with
  | nil => rfl
  | cons e es ih =>
    by_cases he : e.1 = k
    · rw [dictPop, if_pos he, lookupKey, if_neg (fun h2 : e.1 = k2 => hne (h2 ▸ he))]
    · rw [dictPop, if_neg he, lookupKey, lookupKey]
      by_cases h2 : e.1 = k2 <;> simp [h2, ih]

theorem hasKey_true_iff (es : List Entry) (k : Key) :
    hasKey es k = true ↔ ∃ v, lookupKey es k = some v := by
  rw [hasKey, Option.isSome_iff_exists]

theorem hasKey_false_iff (es : List Entry) (k : Key) :
    hasKey es k = false ↔ lookupKey es k = none := by
  rw [hasKey]
  cases lookupKey es k <;> simp

/-- The empty tree. -/
def emptyTree : Tree := ⟨[], none, none⟩

/-- A fixed external-content environment for concrete runs: every local path
hashes to digest `"d1"` with metadata `some 7`. -/
def envW : String → Meta × Digest := fun _ => (some 7, "d1")

/-- An empty object store for concrete runs. -/
def storeW : Store := ⟨[], []⟩

/-- C2: an `add` operation fails with `AlreadyExists` when the target key is
already present in the tree, and otherwise inserts a new entry built from the
external content, adding the hashed object to the store; `modify` performs the
same insertion but permits overwrite and never fails on an occupied key.  In
particular, `add` of key "foo" on the empty tree yields the tree
`[("foo", d1)]` and a second `add` of "foo" fails `AlreadyExists`. -/
theorem C2_patch_add_modify :
    (∀ env s t path dst, hasKey t.entries (splitPath dst) = true →
      apply_op env s t (.add path dst) = .error (.alreadyExists path))
    ∧ (∀ env s t path dst, hasKey t.entries (splitPath dst) = false →
      apply_op env s t (.add path dst) =
        .ok (storeAddObj s (env path).2, Tree.add t (splitPath dst) (env path).1 (env path).2)
      ∧ lookupKey (Tree.add t (splitPath dst) (env path).1 (env path).2).entries
          (splitPath dst) = some (env path)
      ∧ (env path).2 ∈ (storeAddObj s (env path).2).objs
      ∧ ∀ k, k ≠ splitPath dst →
        lookupKey (Tree.add t (splitPath dst) (env path).1 (env path).2).entries k =
          lookupKey t.entries k)
    ∧ (∀ env s t path dst,
      apply_op env s t (.modify path dst) =
        .ok (storeAddObj s (env path).2, Tree.add t (splitPath dst) (env path).1 (env path).2)
      ∧ lookupKey (Tree.add t (splitPath dst) (env path).1 (env path).2).entries
          (splitPath dst) = some (env path)
      ∧ (env path).2 ∈ (storeAddObj s (env path).2).objs
      ∧ ∀ k, k ≠ splitPath dst →
        lookupKey (Tree.add t (splitPath dst) (env path).1 (env path).2).entries k =
          lookupKey t.entries k)
    ∧ (∀ env s m, env "foo" = (m, "d1") →
      apply_op env s emptyTree (.add "foo" "foo") =
        .ok (storeAddObj s "d1", Tree.add emptyTree ["foo"] m "d1")
      ∧ (Tree.add emptyTree ["foo"] m "d1").entries = [(["foo"], m, "d1")]
      ∧ apply_op env (storeAddObj s "d1") (Tree.add emptyTree ["foo"] m "d1")
          (.add "foo" "foo") = .error (.alreadyExists "foo")) := by
  refine ⟨?_, ?_, ?_, ?_⟩
  · intro env s t path dst h
    simp [apply_op, h]
  · intro env s t path dst h
    refine ⟨by simp [apply_op, h], ?_, ?_, ?_⟩
    · exact lookup_insert_self t.entries (splitPath dst) ((env path).1, (env path).2)
    · simp [storeAddObj]
    · intro k hk
      exact lookup_insert_ne t.entries (splitPath dst) ((env path).1, (env path).2) k hk
  · intro env s t path dst
    refine ⟨rfl, ?_, ?_, ?_⟩
    · exact lookup_insert_self t.entries (splitPath dst) ((env path).1, (env path).2)
    · simp [storeAddObj]
    · intro k hk
      exact lookup_insert_ne t.entries (splitPath dst) ((env path).1, (env path).2) k hk
  · intro env s m henv
    have h1 : apply_op env s emptyTree (.add "foo" "foo") =
        .ok (storeAddObj s (env "foo").2,
          Tree.add emptyTree (splitPath "foo") (env "foo").1 (env "foo").2) := rfl
    refine ⟨?_, rfl, ?_⟩
    · rw [h1, henv]
      rfl
    · rfl

/-- C2 witness: the two-step "foo" scenario run at a concrete environment. -/
theorem C2_patch_add_modify_witness :
    apply_op envW storeW emptyTree (.add "foo" "foo") =
      .ok (storeAddObj storeW "d1", Tree.add emptyTree ["foo"] (some 7) "d1")
    ∧ (Tree.add emptyTree ["foo"] (some 7) "d1").entries = [(["foo"], some 7, "d1")]
    ∧ apply_op envW (storeAddObj storeW "d1") (Tree.add emptyTree ["foo"] (some 7) "d1")
        (.add "foo" "foo") = .error (.alreadyExists "foo") :=
  C2_patch_add_modify.2.2.2 envW storeW (some 7) rfl

/-- C3: `remove`, `move`, `copy` and `test` fail with `NotFound` when the key
named by `path` is absent; when present, `remove` deletes the entry, `move`
re-keys it to `to` removing the original, `copy` duplicates it under `to`
retaining the source, and `test` performs no mutation. -/
theorem C3_patch_remove_move_copy_test :
    ∀ env s t path,
    (hasKey t.entries (splitPath path) = false →
      apply_op env s t (.remove path) = .error (.notFound path)
      ∧ (∀ dst, apply_op env s t (.move path dst) = .error (.notFound path))
      ∧ (∀ dst, apply_op env s t (.copy path dst) = .error (.notFound path))
      ∧ apply_op env s t (.test path) = .error (.notFound path))
    ∧ (∀ md, lookupKey t.entries (splitPath path) = some md → keysND t.entries →
      (∀ s2 t2, apply_op env s t (.remove path) = .ok (s2, t2) →
        s2 = s ∧ lookupKey t2.entries (splitPath path) = none
        ∧ ∀ k, k ≠ splitPath path → lookupKey t2.entries k = lookupKey t.entries k)
      ∧ (∀ dst s2 t2, apply_op env s t (.move path dst) = .ok (s2, t2) →
        s2 = s ∧ lookupKey t2.entries (splitPath path) = none
        ∧ (splitPath dst ≠ splitPath path →
            lookupKey t2.entries (splitPath dst) = some md))
      ∧ (∀ dst s2 t2, apply_op env s t (.copy path dst) = .ok (s2, t2) →
        s2 = s ∧ lookupKey t2.entries (splitPath dst) = some md
        ∧ lookupKey t2.entries (splitPath path) = some md)
      ∧ apply_op env s t (.test path) = .ok (s, t)) := by
  intro env s t path
  constructor
  · intro h
    have hl : lookupKey t.entries (splitPath path) = none := (hasKey_false_iff _ _).mp h
    exact ⟨by simp [apply_op, h], fun dst => by simp [apply_op, hl],
      fun dst => by simp [apply_op, hl], by simp [apply_op, h]⟩
  · intro md hmd hnd
    have hh : hasKey t.entries (splitPath path) = true :=
      (hasKey_true_iff _ _).mpr ⟨md, hmd⟩
    refine ⟨?_, ?_, ?_, by simp [apply_op, hh]⟩
    · intro s2 t2 heq
      rw [show apply_op env s t (.remove path) =
        .ok (s, { t with entries := dictPop t.entries (splitPath path), trie := none })
        from by simp [apply_op, hh]] at heq
      cases heq
      refine ⟨rfl, lookup_pop_self t.entries (splitPath path) hnd, ?_⟩
      intro k hk
      exact lookup_pop_ne t.entries (splitPath path) k hk
    · intro dst s2 t2 heq
      rw [show apply_op env s t (.move path dst) =
        .ok (s, { Tree.add t (splitPath dst) md.1 md.2 with
          entries := dictPop (dictInsert t.entries (splitPath dst) (md.1, md.2))
            (splitPath path) }) from by simp [apply_op, hmd, Tree.add]] at heq
      cases heq
      refine ⟨rfl, ?_, ?_⟩
      · exact lookup_pop_self _ (splitPath path)
          (nodup_insert t.entries (splitPath dst) (md.1, md.2) hnd)
      · intro hne
        rw [lookup_pop_ne _ (splitPath path) (splitPath dst) hne]
        exact lookup_insert_self t.entries (splitPath dst) (md.1, md.2)
    · intro dst s2 t2 heq
      rw [show apply_op env s t (.copy path dst) =
        .ok (s, Tree.add t (splitPath dst) md.1 md.2) from by simp [apply_op, hmd]] at heq
      cases heq
      refine ⟨rfl, lookup_insert_self t.entries (splitPath dst) (md.1, md.2), ?_⟩
      by_cases hne : splitPath path = splitPath dst
      · rw [hne]
        exact lookup_insert_self t.entries (splitPath dst) (md.1, md.2)
      · exact (lookup_insert_ne t.entries (splitPath dst) (md.1, md.2)
          (splitPath path) hne).trans hmd

/-- A one-entry tree for concrete runs of the present cases. -/
def treeW : Tree := ⟨[(["a"], some 1, "dA")], none, none⟩

/-- C3 witness: the present-key `test` case run on a concrete one-entry tree. -/
theorem C3_patch_remove_move_copy_test_witness :
    apply_op envW storeW treeW (.test "a") = .ok (storeW, treeW) :=
  ((C3_patch_remove_move_copy_test envW storeW treeW "a").2
    (some 1, "dA") rfl (by decide)).2.2.2

/-- C5: on the tree with single entry ("a/b", d1), the patch operation
`move "a/b" -> "a/c"` yields the tree with single entry ("a/c", d1) (metadata
and digest preserved, the old key absent), and a subsequent `test "a/b"` fails
with `NotFound`. -/
theorem C5_move_scenario :
    apply_op envW storeW ⟨[(["a", "b"], some 1, "d1")], none, none⟩ (.move "a/b" "a/c") =
      .ok (storeW, ⟨[(["a", "c"], some 1, "d1")], none, none⟩)
    ∧ apply_op envW storeW ⟨[(["a", "c"], some 1, "d1")], none, none⟩ (.test "a/b") =
      .error (.notFound "a/b") := by
  constructor
  · rfl
  · rfl

/-- C10: a `move` whose `path` and `to` both name the same present key removes
the entry from the tree entirely (the source adds the entry onto itself and
then pops the key). -/
theorem C10_move_self_removes :
    ∀ env s t p md, lookupKey t.entries (splitPath p) = some md → keysND t.entries →
    ∀ s2 t2, apply_op env s t (.move p p) = .ok (s2, t2) →
      hasKey t2.entries (splitPath p) = false := by
  intro env s t p md hmd hnd s2 t2 heq
  rw [show apply_op env s t (.move p p) =
    .ok (s, { Tree.add t (splitPath p) md.1 md.2 with
      entries := dictPop (dictInsert t.entries (splitPath p) (md.1, md.2))
        (splitPath p) }) from by simp [apply_op, hmd, Tree.add]] at heq
  cases heq
  rw [hasKey_false_iff]
  exact lookup_pop_self _ (splitPath p)
    (nodup_insert t.entries (splitPath p) (md.1, md.2) hnd)

/-- C10 witness: moving "a" onto itself on a concrete one-entry tree leaves a
tree without the key "a". -/
theorem C10_move_self_removes_witness :
    hasKey (⟨[], none, none⟩ : Tree).entries (splitPath "a") = false :=
  C10_move_self_removes envW storeW treeW "a" (some 1, "dA") rfl (by decide)
    storeW ⟨[], none, none⟩ rfl

/-- C4: patch operations apply strictly in list order; when an operation fails
the batch stops there, nothing after it is applied and nothing before it is
rolled back: the store and tree returned with the error are exactly the result
of applying the prefix of operations before the failing index, and the
operation at that index fails on that partially-applied state. -/
theorem C4_batch_fail_fast :
    ∀ env ops s t s2 t2 e, runPatch env s t ops = (s2, t2, some e) →
    ∃ i, ∃ h : i < ops.length,
      runPatch env s t (ops.take i) = (s2, t2, none)
      ∧ apply_op env s2 t2 (ops.get ⟨i, h⟩) = .error e := by
  intro env ops
  induction ops with
  | nil =>
    intro s t s2 t2 e h
    replace h : ((s, t, none) : Store × Tree × Option PatchError) = (s2, t2, some e) := h
    simp at h
  | cons op ops ih =>
    intro s t s2 t2 e h
    rw [runPatch] at h
    cases happ : apply_op env s t op with
    | ok st =>
      obtain ⟨s1, t1⟩ := st
      rw [happ] at h
      replace h : runPatch env s1 t1 ops = (s2, t2, some e) := h
      obtain ⟨i, hi, h1, h2⟩ := ih s1 t1 s2 t2 e h
      refine ⟨i + 1, Nat.succ_lt_succ hi, ?_, ?_⟩
      · rw [List.take_succ_cons, runPatch, happ]
        exact h1
      · simpa using h2
    | error e2 =>
      rw [happ] at h
      replace h : ((s, t, some e2) : Store × Tree × Option PatchError) = (s2, t2, some e) := h
      simp only [Prod.mk.injEq, Option.some.injEq] at h
      obtain ⟨rfl, rfl, rfl⟩ := h
      exact ⟨0, Nat.succ_pos _, rfl, happ⟩

/-- C4 witness: a batch whose second operation tests a missing key stops at
index 1 with the first operation's effect retained. -/
theorem C4_batch_fail_fast_witness :
    ∃ i, ∃ h : i < ([Op.modify "foo" "foo", Op.test "nope"].length),
      runPatch envW storeW emptyTree ([Op.modify "foo" "foo", Op.test "nope"].take i) =
        (storeAddObj storeW "d1", Tree.add emptyTree ["foo"] (some 7) "d1", none)
      ∧ apply_op envW (storeAddObj storeW "d1") (Tree.add emptyTree ["foo"] (some 7) "d1")
          ([Op.modify "foo" "foo", Op.test "nope"].get ⟨i, h⟩) = .error (.notFound "nope") :=
  C4_batch_fail_fast envW [Op.modify "foo" "foo", Op.test "nope"] storeW emptyTree
    (storeAddObj storeW "d1") (Tree.add emptyTree ["foo"] (some 7) "d1")
    (.notFound "nope") rfl

/-- A tree whose cached trie is invalidated answers trie queries from its
current entries. -/
theorem getTrie_eq_of_none (t : Tree) (h : t.trie = none) :
    Tree.getTrie t = trieOf t := by
  rw [Tree.getTrie, h]

/-- C8: the structural mutations of the patch engine — add, remove and move —
all invalidate the tree's cached trie index, so a trie query on the resulting
tree is rebuilt from the current entries and cannot observe a stale entry for a
removed or re-keyed path. -/
theorem C8_trie_invalidated :
    ∀ env s t s2 t2,
    (∀ path dst, apply_op env s t (.add path dst) = .ok (s2, t2) →
      t2.trie = none ∧ Tree.getTrie t2 = trieOf t2)
    ∧ (∀ path, apply_op env s t (.remove path) = .ok (s2, t2) →
      t2.trie = none ∧ Tree.getTrie t2 = trieOf t2)
    ∧ (∀ path dst, apply_op env s t (.move path dst) = .ok (s2, t2) →
      t2.trie = none ∧ Tree.getTrie t2 = trieOf t2) := by
  intro env s t s2 t2
  refine ⟨?_, ?_, ?_⟩
  · intro path dst h
    by_cases hk : hasKey t.entries (splitPath dst) = true
    · simp [apply_op, hk] at h
    · have hk2 : hasKey t.entries (splitPath dst) = false := by simpa using hk
      simp only [apply_op, hk2, Bool.false_eq_true, if_false, Except.ok.injEq,
        Prod.mk.injEq] at h
      obtain ⟨-, rfl⟩ := h
      exact ⟨rfl, getTrie_eq_of_none _ rfl⟩
  · intro path h
    by_cases hk : hasKey t.entries (splitPath path) = true
    · simp only [apply_op, hk, if_true, Except.ok.injEq, Prod.mk.injEq] at h
      obtain ⟨-, rfl⟩ := h
      exact ⟨rfl, getTrie_eq_of_none _ rfl⟩
    · have hk2 : hasKey t.entries (splitPath path) = false := by simpa using hk
      simp [apply_op, hk2] at h
  · intro path dst h
    cases hl : lookupKey t.entries (splitPath path) with
    | none => simp [apply_op, hl] at h
    | some md =>
      simp only [apply_op, hl, Except.ok.injEq, Prod.mk.injEq] at h
      obtain ⟨-, rfl⟩ := h
      exact ⟨rfl, getTrie_eq_of_none _ rfl⟩

/-- C8 witness: an `add` on the empty tree leaves the trie cache invalidated
and the accessor rebuilt from the new entries. -/
theorem C8_trie_invalidated_witness :
    (Tree.add emptyTree ["foo"] (some 7) "d1").trie = none
    ∧ Tree.getTrie (Tree.add emptyTree ["foo"] (some 7) "d1") =
      trieOf (Tree.add emptyTree ["foo"] (some 7) "d1") :=
  (C8_trie_invalidated envW storeW emptyTree (storeAddObj storeW "d1")
    (Tree.add emptyTree ["foo"] (some 7) "d1")).1 "foo" "foo" rfl

/-- A successful patch operation may add file objects to the store but never
persists a tree object. -/
theorem apply_op_trees :
    ∀ env s t op s2 t2, apply_op env s t op = .ok (s2, t2) → s2.trees = s.trees := by
  intro env s t op s2 t2 h
  cases op with
  | add path dst =>
    by_cases hk : hasKey t.entries (splitPath dst) = true
    · simp [apply_op, hk] at h
    · have hk2 : hasKey t.entries (splitPath dst) = false := by simpa using hk
      simp only [apply_op, hk2, Bool.false_eq_true, if_false, Except.ok.injEq,
        Prod.mk.injEq] at h
      obtain ⟨rfl, -⟩ := h
      rfl
  | modify path dst =>
    simp only [apply_op, Except.ok.injEq, Prod.mk.injEq] at h
    obtain ⟨rfl, -⟩ := h
    rfl
  | remove path =>
    by_cases hk : hasKey t.entries (splitPath path) = true
    · simp only [apply_op, hk, if_true, Except.ok.injEq, Prod.mk.injEq] at h
      obtain ⟨rfl, -⟩ := h
      rfl
    · have hk2 : hasKey t.entries (splitPath path) = false := by simpa using hk
      simp [apply_op, hk2] at h
  | move path dst =>
    cases hl : lookupKey t.entries (splitPath path) with
    | none => simp [apply_op, hl] at h
    | some md =>
      simp only [apply_op, hl, Except.ok.injEq, Prod.mk.injEq] at h
      obtain ⟨rfl, -⟩ := h
      rfl
  | copy path dst =>
    cases hl : lookupKey t.entries (splitPath path) with
    | none => simp [apply_op, hl] at h
    | some md =>
      simp only [apply_op, hl, Except.ok.injEq, Prod.mk.injEq] at h
      obtain ⟨rfl, -⟩ := h
      rfl
  | test path =>
    by_cases hk : hasKey t.entries (splitPath path) = true
    · simp only [apply_op, hk, if_true, Except.ok.injEq, Prod.mk.injEq] at h
      obtain ⟨rfl, -⟩ := h
      rfl
    · have hk2 : hasKey t.entries (splitPath path) = false := by simpa using hk
      simp [apply_op, hk2] at h

/-- A successful patch batch never persists a tree object. -/
theorem runPatch_trees :
    ∀ env ops s t s2 t2, runPatch env s t ops = (s2, t2, none) → s2.trees = s.trees := by
  intro env ops
  induction ops with
  | nil =>
    intro s t s2 t2 h
    replace h : ((s, t, none) : Store × Tree × Option PatchError) = (s2, t2, none) := h
    simp only [Prod.mk.injEq] at h
    obtain ⟨rfl, -, -⟩ := h
    rfl
  | cons op ops ih =>
    intro s t s2 t2 h
    rw [runPatch] at h
    cases happ : apply_op env s t op with
    | ok st =>
      obtain ⟨s1, t1⟩ := st
      rw [happ] at h
      replace h : runPatch env s1 t1 ops = (s2, t2, none) := h
      rw [ih s1 t1 s2 t2 h]
      exact apply_op_trees env s t op s1 t1 happ
    | error e2 =>
      rw [happ] at h
      replace h : ((s, t, some e2) : Store × Tree × Option PatchError) = (s2, t2, none) := h
      simp at h

/-- C9: both mutating flows — batch patch application (`update_tree`) and merge
(`merge_tree`) — recompute the tree's digest after the last mutation and before
the tree is persisted: the persisted tree's cached digest matches its current
entries, and it is the only tree object the flow adds to the store. -/
theorem C9_digest_before_persist :
    (∀ env s obj ops s2 t2, update_tree env s obj ops = .ok (s2, t2) →
      digestFresh t2 ∧ s2.trees = t2 :: s.trees)
    ∧ (∀ s a b force t2 s2, merge_tree s a b force = .merged t2 s2 →
      digestFresh t2 ∧ s2.trees = t2 :: s.trees) := by
  constructor
  · intro env s obj ops s2 t2 h
    rw [update_tree] at h
    rcases hrp : runPatch env s obj ops with ⟨s1, t1, oe⟩
    rw [hrp] at h
    cases oe with
    | none =>
      replace h : (Except.ok (persistTree s1 (Tree.digestOf t1), Tree.digestOf t1) :
          Except PatchError (Store × Tree)) = .ok (s2, t2) := h
      simp only [Except.ok.injEq, Prod.mk.injEq] at h
      obtain ⟨rfl, rfl⟩ := h
      refine ⟨rfl, ?_⟩
      rw [persistTree]
      rw [runPatch_trees env ops s obj s1 t1 hrp]
    | some e =>
      replace h : (Except.error e : Except PatchError (Store × Tree)) = .ok (s2, t2) := h
      simp at h
  · intro s a b force t2 s2 h
    rw [merge_tree] at h
    by_cases hc : (if force then [] else nonRootModified (diffTrees a b)).isEmpty = true
    · rw [if_pos hc] at h
      simp only [MergeOutcome.merged.injEq] at h
      obtain ⟨rfl, rfl⟩ := h
      exact ⟨rfl, rfl⟩
    · rw [if_neg hc] at h
      simp at h

/-- C9 witness: the empty batch on the empty tree persists exactly the freshly
digested tree. -/
theorem C9_digest_before_persist_witness :
    digestFresh (Tree.digestOf emptyTree)
    ∧ (persistTree storeW (Tree.digestOf emptyTree)).trees =
      Tree.digestOf emptyTree :: storeW.trees :=
  C9_digest_before_persist.1 envW storeW emptyTree []
    (persistTree storeW (Tree.digestOf emptyTree)) (Tree.digestOf emptyTree) rfl

/-- The conflict list is empty exactly when every modified entry of the diff
sits at the ROOT key. -/
theorem nonRootModified_eq_nil_iff (d : DiffResult) :
    nonRootModified d = [] ↔ ∀ m ∈ d.modified, m.1 = ROOT := by
  rw [nonRootModified, List.map_eq_nil_iff, List.filter_eq_nil_iff]
  simp

/-- Every non-ROOT modified key of the diff is in the conflict list. -/
theorem mem_nonRootModified (d : DiffResult) (m : Key × (Meta × Digest) × (Meta × Digest))
    (hm : m ∈ d.modified) (hr : m.1 ≠ ROOT) : m.1 ∈ nonRootModified d := by
  rw [nonRootModified]
  exact List.mem_map_of_mem Prod.fst (List.mem_filter.mpr ⟨hm, by simpa using hr⟩)

/-- C1: merge without force fails with the conflict exit iff the diff of the
two trees has at least one modified entry at a non-ROOT key; when it fails, the
reported conflict list is exactly the non-ROOT modified keys (so every
conflicting path is reported); merge with force performs no conflict detection
and never fails with a conflict. -/
theorem C1_merge_conflicts :
    ∀ s a b,
    ((∃ paths, merge_tree s a b false = .conflict paths) ↔
      ∃ m ∈ (diffTrees a b).modified, m.1 ≠ ROOT)
    ∧ (∀ paths, merge_tree s a b false = .conflict paths →
      paths = nonRootModified (diffTrees a b)
      ∧ ∀ m ∈ (diffTrees a b).modified, m.1 ≠ ROOT → m.1 ∈ paths)
    ∧ (∀ paths, merge_tree s a b true ≠ .conflict paths) := by
  intro s a b
  have hredf : merge_tree s a b false =
      (if (nonRootModified (diffTrees a b)).isEmpty then
        .merged (Tree.digestOf (mergeTrees a b))
          (persistTree s (Tree.digestOf (mergeTrees a b)))
      else .conflict (nonRootModified (diffTrees a b))) := rfl
  have hredt : merge_tree s a b true =
      .merged (Tree.digestOf (mergeTrees a b))
        (persistTree s (Tree.digestOf (mergeTrees a b))) := rfl
  by_cases hc : (nonRootModified (diffTrees a b)).isEmpty = true
  · have hnil : nonRootModified (diffTrees a b) = [] := by
      simpa using hc
    refine ⟨?_, ?_, ?_⟩
    · constructor
      · rintro ⟨paths, hp⟩
        rw [hredf, if_pos hc] at hp
        simp at hp
      · rintro ⟨m, hm, hr⟩
        exact absurd ((nonRootModified_eq_nil_iff _).mp hnil m hm) hr
    · intro paths hp
      rw [hredf, if_pos hc] at hp
      simp at hp
    · intro paths hp
      rw [hredt] at hp
      simp at hp
  · have hne : nonRootModified (diffTrees a b) ≠ [] := by
      simpa using hc
    refine ⟨?_, ?_, ?_⟩
    · constructor
      · intro _
        rcases List.exists_mem_of_ne_nil _ hne with ⟨k, hk⟩
        rw [nonRootModified, List.mem_map] at hk
        rcases hk with ⟨m, hm, rfl⟩
        rw [List.mem_filter] at hm
        exact ⟨m, hm.1, by simpa using hm.2⟩
      · intro _
        exact ⟨nonRootModified (diffTrees a b), by rw [hredf, if_neg hc]⟩
    · intro paths hp
      rw [hredf, if_neg hc] at hp
      simp only [MergeOutcome.conflict.injEq] at hp
      subst hp
      exact ⟨rfl, fun m hm hr => mem_nonRootModified _ m hm hr⟩
    · intro paths hp
      rw [hredt] at hp
      simp at hp

/-- The spec scenario tree A with single entry ("x", d1). -/
def treeA : Tree := ⟨[(["x"], some 1, "d1")], none, none⟩

/-- The spec scenario tree B with entries ("x", d2) and ("y", d3). -/
def treeB : Tree := ⟨[(["x"], some 1, "d2"), (["y"], some 2, "d3")], none, none⟩

/-- C1 witness: on the spec scenario trees the non-forced merge exits with a
conflict. -/
theorem C1_merge_conflicts_witness :
    ∃ paths, merge_tree storeW treeA treeB false = .conflict paths :=
  (C1_merge_conflicts storeW treeA treeB).1.mpr (by decide)

/-- C6: contrary to the spec, the patch-file resolution step of
`process_patch` never completes for a well-formed batch containing an add or
modify record: on the scenario batch with the single record
`op="add", path="foo", to="foo"` the loop raises (the code indexes the list
`patch` with the dict `appl` and takes `.parent` of the `str` patch file) and
the batch is never returned, while a batch whose records are of other kinds is
returned unresolved. -/
theorem C6_process_patch_raises :
    process_patch [⟨some "add", some "foo", some "foo"⟩] [] = .error .attrError
    ∧ process_patch [⟨some "remove", some "x", none⟩] [] =
      .ok [⟨some "remove", some "x", none⟩] :=
  ⟨rfl, rfl⟩

/-- C7: short-digest resolution fails with the unknown-reference error when no
stored digest matches the prefix, fails with the ambiguous-reference error when
more than one matches — in both cases `from_shortoid` exits with code 1 — and
returns the unique matching full digest otherwise. -/
theorem C7_short_oid_resolution :
    ∀ objs pre,
    (oidMatches objs pre = [] →
      existsPrefixOid objs pre = .error .unknownRef
      ∧ from_shortoid objs pre = .exited 1)
    ∧ (2 ≤ (oidMatches objs pre).length →
      existsPrefixOid objs pre = .error .ambiguousRef
      ∧ from_shortoid objs pre = .exited 1)
    ∧ (∀ d, oidMatches objs pre = [d] →
      existsPrefixOid objs pre = .ok d ∧ from_shortoid objs pre = .ok d
      ∧ d ∈ objs ∧ List.isPrefixOf pre.data d.data = true) := by
  intro objs pre
  refine ⟨?_, ?_, ?_⟩
  · intro h
    constructor
    · rw [existsPrefixOid, h]
    · rw [from_shortoid, existsPrefixOid, h]
  · intro h
    cases hm : oidMatches objs pre with
    | nil => rw [hm] at h; simp at h
    | cons d rest =>
      cases rest with
      | nil => rw [hm] at h; simp at h
      | cons d2 rest2 =>
        constructor
        · rw [existsPrefixOid, hm]
        · rw [from_shortoid, existsPrefixOid, hm]
  · intro d h
    have hmem : d ∈ oidMatches objs pre := by
      rw [h]
      exact List.mem_singleton_self d
    rw [oidMatches, List.mem_filter] at hmem
    refine ⟨by rw [existsPrefixOid, h], by rw [from_shortoid, existsPrefixOid, h],
      List.mem_dedup.mp hmem.1, hmem.2⟩

/-- C7 witness: on the store with digests "abc" and "xyz" the short digest
"ab" resolves uniquely to "abc". -/
theorem C7_short_oid_resolution_witness :
    existsPrefixOid ["abc", "xyz"] "ab" = .ok "abc"
    ∧ from_shortoid ["abc", "xyz"] "ab" = .ok "abc"
    ∧ "abc" ∈ ["abc", "xyz"] ∧ List.isPrefixOf "ab".data "abc".data = true :=
  (C7_short_oid_resolution ["abc", "xyz"] "ab").2.2 "abc" (by decide)

end DvcData
